import Mathlib

/-!
Verification development for the ai-sales-agent message pipeline.

Shallow embedding of the core components of the repository:
 - Signature Verifier  (`verifyWebhookSignature` in src/lib/facebook.ts)
 - Response Classifier (`parseGeminiResponse` in src/lib/chatbot-utils.ts)
 - Credential Cipher   (`encrypt` / `decrypt` in src/lib/encryption.ts)
 - Delivery Client     (`sendMessage` in src/lib/facebook.ts)
 - Pipeline Orchestrator (`POST` / `processMessagingEvent` in
   src/app/api/webhook/messenger/route.ts)

JavaScript strings are modelled as `List Char`; byte buffers as `List Nat`
with entries below 256.  External collaborators (the HMAC primitive, the AES
block cipher, the Prisma store, the Gemini and Facebook HTTP endpoints) are
parameters of the model; everything else is translated statement by
statement from the TypeScript source.
-/

namespace SalesAgent

/-- JavaScript strings, modelled as lists of characters. -/
abbrev Str := List Char

instance {ε α : Type} [DecidableEq ε] [DecidableEq α] : DecidableEq (Except ε α) :=
  fun x y =>
  match x, y with
  | .error a, .error b => decidable_of_iff (a = b) (by simp)
  | .error _, .ok _ => isFalse (by simp)
  | .ok _, .error _ => isFalse (by simp)
  | .ok a, .ok b => decidable_of_iff (a = b) (by simp)

/-! ## Generic string helpers (JS semantics) -/

/-- Does `s` start with `pre`?  (`String.prototype.startsWith`). -/
def startsWithL : Str → Str → Bool
  | [], _ => true
  | _ :: _, [] => false
  | p :: ps, c :: cs => p = c && startsWithL ps cs

/-- Whitespace class used by JS `String.prototype.trim` and the regex class
`\s` (ASCII part; the exotic Unicode spaces play no role in this code). -/
def isJsWs (c : Char) : Bool :=
  c = ' ' || c = '\t' || c = '\n' || c = '\r' || c = '\x0b' || c = '\x0c'

/-- JS `String.prototype.trim`: strip leading and trailing whitespace. -/
def jsTrim (s : Str) : Str :=
  ((s.dropWhile isJsWs).reverse.dropWhile isJsWs).reverse

/-- JS line terminators, the characters not matched by `.` in a regex. -/
def isLineTerm (c : Char) : Bool := c = '\n' || c = '\r'

/-- JS `String.prototype.split` with a single-character separator:
`"a:b:c".split(":") = ["a","b","c"]`. -/
def splitOnCharL (sep : Char) : Str → List Str
  | [] => [[]]
  | c :: rest =>
    if c = sep then [] :: splitOnCharL sep rest
    else
      match splitOnCharL sep rest with
      | [] => [[c]]
      | h :: t => (c :: h) :: t

/-! ## Signature Verifier (src/lib/facebook.ts, `verifyWebhookSignature`)

The source extracts the received digest with
`signature.split('sha256=')[1]`, computes `expectedHash` with
HMAC-SHA256 over the raw body, and compares with
`crypto.timingSafeEqual`, returning `false` (not throwing) when the two
buffers have different lengths.  The HMAC primitive itself is an external
vetted library call and is a parameter `hmacHex` of the model
(secret → body → lowercase hex digest). -/

/-- The literal separator `'sha256='` used by `signature.split('sha256=')`. -/
def sigMarker : Str := ['s', 'h', 'a', '2', '5', '6', '=']

/-- JS `String.prototype.split` with the separator `'sha256='`: scan left to
right, cutting at each non-overlapping occurrence of the marker. -/
def splitSig : Str → List Str
  | [] => [[]]
  | c :: rest =>
    if startsWithL sigMarker (c :: rest) then
      [] :: splitSig ((c :: rest).drop 7)
    else
      match splitSig rest with
      | [] => [[c]]
      | h :: t => (c :: h) :: t
termination_by s => s.length
decreasing_by
  · simp only [List.length_drop, List.length_cons]
    omega
  · simp

/-- Does the marker `'sha256='` occur anywhere in `s`? -/
def containsSig : Str → Bool
  | [] => false
  | c :: rest => startsWithL sigMarker (c :: rest) || containsSig rest

/-- Model of `verifyWebhookSignature(signature, body, appSecret)`.
`none` models a missing (`null`/`undefined`) header; `some []` the empty
header (both falsy in JS).  `hmacHex` abstracts
`crypto.createHmac('sha256', appSecret).update(body).digest('hex')`.
`timingSafeEqual` on equal-length buffers is content equality, and its
length-mismatch exception is caught and turned into `false`. -/
def verifyWebhookSignature (hmacHex : Str → Str → Str)
    (signature : Option Str) (body appSecret : Str) : Bool :=
  match signature with
  | none => false
  | some sig =>
    if sig = [] then false
    else
      match (splitSig sig).get? 1 with
      | none => false
      | some h =>
        if h = [] then false
        else decide (h = hmacHex appSecret body)

/-! ## Response Classifier (src/lib/chatbot-utils.ts) -/

/-- Minimal product projection `{ name, price }` handed to the generator
and the classifier (src/lib/types.ts, `ProductContext`). -/
structure ProductContext where
  name : Str
  price : Str
deriving DecidableEq, Repr

/-- The response-kind tag of `ParsedResponse.type`
(`'normal' | 'out-of-scope' | 'alternative'`). -/
inductive FallbackType
  | normal
  | outOfScope
  | alternative
deriving DecidableEq, Repr

/-- Classifier output (src/lib/types.ts, `ParsedResponse`). -/
structure ParsedResponse where
  type : FallbackType
  text : Str
  suggestedProduct : Option Str := none
deriving DecidableEq, Repr

/-- Error thrown by `parseGeminiResponse` on an empty answer
(`'AI response cannot be empty'`). -/
inductive ChatbotErr
  | emptyAnswer
deriving DecidableEq, Repr

/-- Literal out-of-scope signal token `OUT_OF_SCOPE`. -/
def outOfScopeSignal : Str := "OUT_OF_SCOPE".data

/-- Literal alternative-signal marker `ALTERNATIVE:`. -/
def altSignalMark : Str := "ALTERNATIVE:".data

/-- Model of `getOutOfScopeMessage()`: the fixed redirect text. -/
def outOfScopeMessage : Str :=
  "I can only answer questions about our products. For other inquiries, please contact the shop owner directly.".data

/-- Model of `getAlternativeSuggestionMessage(product)`: the fixed template
naming the matched product and its price. -/
def alternativeSuggestionMessage (product : ProductContext) : Str :=
  "I don\x27t have that exact item, but we have ".data ++ product.name
    ++ " for ".data ++ product.price ++ ". Would that work for you?".data

/-- Capture of the regex `/^ALTERNATIVE:\s*(.+)/` applied to `t`, followed by
`.trim()` (the source computes `productNameMatch[1].trim()`).  `t` is the
already-trimmed response and is assumed to start with `ALTERNATIVE:`
(guaranteed by the call site); therefore the remainder after the marker is
never a nonempty all-whitespace string, and the regex engine needs no
backtracking: greedily skip `\s`, then `(.+)` captures up to the first line
terminator.  `none` models a failed match. -/
def altExtract (t : Str) : Option Str :=
  let rest := t.drop altSignalMark.length
  let afterWs := rest.dropWhile isJsWs
  if afterWs = [] then none
  else some (jsTrim (afterWs.takeWhile fun c => !isLineTerm c))

/-- Model of `parseGeminiResponse(aiResponse, products)`.  JS
`!aiResponse || aiResponse.trim().length === 0` is `jsTrim aiResponse = []`
(a missing string never reaches this pure helper).  `products.find(p =>
p.name === suggestedProductName)` is `List.find?` with exact equality. -/
def parseGeminiResponse (aiResponse : Str) (products : List ProductContext) :
    Except ChatbotErr ParsedResponse :=
  if jsTrim aiResponse = [] then .error .emptyAnswer
  else
    let t := jsTrim aiResponse
    if startsWithL outOfScopeSignal t then
      .ok ⟨.outOfScope, outOfScopeMessage, none⟩
    else if startsWithL altSignalMark t then
      match altExtract t with
      | some nm =>
        match products.find? (fun p => p.name == nm) with
        | some product => .ok ⟨.alternative, alternativeSuggestionMessage product, some nm⟩
        | none => .ok ⟨.normal, t, none⟩
      | none => .ok ⟨.normal, t, none⟩
    else .ok ⟨.normal, t, none⟩

/-! ## Credential Cipher (src/lib/encryption.ts)

`encrypt` draws a fresh 16-byte IV (`crypto.randomBytes(16)`), runs
`aes-256-cbc` (CBC mode with PKCS#7 padding) and returns
`hex(iv) + ':' + hex(ciphertext)`.  `decrypt` splits on `':'`, requires
exactly two segments, hex-decodes both (Node `Buffer.from(s, 'hex')` is
lenient: it truncates at the first invalid pair instead of throwing) and
undoes CBC + padding, throwing on a bad IV length, a ciphertext that is not
a positive multiple of the block size, or bad padding.  The keyed AES-256
permutation itself is the vetted external primitive; it is abstracted as a
`BlockCipher` whose required properties are collected in `GoodCipher`.
Plaintexts are byte lists (the UTF-8 bytes of the JS string). -/

/-- A keyed 16-byte block cipher (the `aes-256-cbc` core with the 32-byte
key from `getEncryptionKey()` baked in). -/
structure BlockCipher where
  encBlock : List Nat → List Nat
  decBlock : List Nat → List Nat

/-- The properties of a real block cipher that the CBC construction relies
on: block-size preservation, byte-range preservation, and invertibility. -/
structure GoodCipher (C : BlockCipher) : Prop where
  enc_len : ∀ b : List Nat, b.length = 16 → (C.encBlock b).length = 16
  enc_lt : ∀ b : List Nat, b.length = 16 → (∀ x ∈ b, x < 256) →
    ∀ x ∈ C.encBlock b, x < 256
  dec_enc : ∀ b : List Nat, b.length = 16 → C.decBlock (C.encBlock b) = b

/-- Lowercase hex digit for a value below 16. -/
def hexDigitChar (n : Nat) : Char :=
  if n < 10 then Char.ofNat ('0'.toNat + n) else Char.ofNat ('a'.toNat + (n - 10))

/-- Two-character lowercase hex encoding of one byte. -/
def byteToHex (b : Nat) : Str := [hexDigitChar (b / 16), hexDigitChar (b % 16)]

/-- Hex encoding `buffer.toString('hex')`. -/
def bytesToHex (l : List Nat) : Str := (l.map byteToHex).flatten

/-- Value of one hex digit, `none` for a non-hex character. -/
def hexVal? (c : Char) : Option Nat :=
  if '0' ≤ c ∧ c ≤ '9' then some (c.toNat - '0'.toNat)
  else if 'a' ≤ c ∧ c ≤ 'f' then some (c.toNat - 'a'.toNat + 10)
  else if 'A' ≤ c ∧ c ≤ 'F' then some (c.toNat - 'A'.toNat + 10)
  else none

/-- Node `Buffer.from(s, 'hex')`: decode pairs of hex digits, silently
truncating at the first invalid pair (a lone trailing digit is dropped). -/
def hexToBytesNode : Str → List Nat
  | c1 :: c2 :: rest =>
    match hexVal? c1, hexVal? c2 with
    | some hi, some lo => (16 * hi + lo) :: hexToBytesNode rest
    | _, _ => []
  | _ => []

/-- Bytewise XOR of two equal-length buffers (the CBC chaining step). -/
def xorBytes (a b : List Nat) : List Nat := List.zipWith (fun x y => x ^^^ y) a b

/-- PKCS#7 padding to a multiple of 16 bytes (what `cipher.final` applies
for `aes-256-cbc`): always append `k` bytes of value `k`, `1 ≤ k ≤ 16`. -/
def pkcs7Pad (d : List Nat) : List Nat :=
  d ++ List.replicate (16 - d.length % 16) (16 - d.length % 16)

/-- PKCS#7 unpadding check performed by `decipher.final`: the last byte `k`
must satisfy `1 ≤ k ≤ 16` and the last `k` bytes must all equal `k`;
otherwise decryption fails (`bad decrypt`). -/
def pkcs7Unpad (d : List Nat) : Option (List Nat) :=
  match d.getLast? with
  | none => none
  | some k =>
    if 1 ≤ k ∧ k ≤ 16 ∧ k ≤ d.length ∧ (d.drop (d.length - k)).all (fun x => x = k) then
      some (d.take (d.length - k))
    else none

/-- Split a byte list into 16-byte blocks (callers pass multiples of 16). -/
def chunk16 : List Nat → List (List Nat)
  | [] => []
  | x :: rest => ((x :: rest).take 16) :: chunk16 ((x :: rest).drop 16)
termination_by l => l.length
decreasing_by simp only [List.length_drop, List.length_cons]; omega

/-- CBC encryption of a block list: `cᵢ = E(pᵢ ⊕ cᵢ₋₁)` with `c₀` the IV. -/
def cbcEncBlocks (C : BlockCipher) (prev : List Nat) : List (List Nat) → List (List Nat)
  | [] => []
  | b :: rest =>
    let c := C.encBlock (xorBytes prev b)
    c :: cbcEncBlocks C c rest

/-- CBC decryption of a block list: `pᵢ = D(cᵢ) ⊕ cᵢ₋₁`. -/
def cbcDecBlocks (C : BlockCipher) (prev : List Nat) : List (List Nat) → List (List Nat)
  | [] => []
  | c :: rest => xorBytes prev (C.decBlock c) :: cbcDecBlocks C c rest

/-- Full CBC encryption with padding, as performed by
`cipher.update(text, 'utf8', 'hex') + cipher.final('hex')` (before the hex
step). -/
def cbcEncrypt (C : BlockCipher) (iv plain : List Nat) : List Nat :=
  (cbcEncBlocks C iv (chunk16 (pkcs7Pad plain))).flatten

/-- Model of `encrypt(text)`: the freshly sampled IV is a parameter (the
only nondeterminism of the source); the result is
`iv.toString('hex') + ':' + encrypted`. -/
def encrypt (C : BlockCipher) (iv plain : List Nat) : Str :=
  bytesToHex iv ++ ':' :: bytesToHex (cbcEncrypt C iv plain)

/-- Failure modes of `decrypt` (the source throws plain `Error`s; the
constructors record which check failed). -/
inductive DecryptErr
  | invalidFormat
  | badIv
  | badBlockLen
  | badPad
deriving DecidableEq, Repr

/-- Decryption of the two decoded segments: `createDecipheriv` rejects an
IV that is not 16 bytes; `decipher.update/final` reject a ciphertext that
is not a positive multiple of 16 bytes and then check the padding. -/
def decryptParts (C : BlockCipher) (iv ct : List Nat) : Except DecryptErr (List Nat) :=
  if iv.length = 16 then
    if ct.length % 16 = 0 ∧ ct ≠ [] then
      match pkcs7Unpad ((cbcDecBlocks C iv (chunk16 ct)).flatten) with
      | some p => .ok p
      | none => .error .badPad
    else .error .badBlockLen
  else .error .badIv

/-- Model of `decrypt(encryptedText)`: split on `':'`, require exactly two
segments (`parts.length !== 2` throws `Invalid encrypted text format`),
hex-decode both leniently, then CBC-decrypt. -/
def decrypt (C : BlockCipher) (s : Str) : Except DecryptErr (List Nat) :=
  match splitOnCharL ':' s with
  | [ivHex, ctHex] => decryptParts C (hexToBytesNode ivHex) (hexToBytesNode ctHex)
  | _ => .error .invalidFormat

/-- The identity block cipher: a trivially `GoodCipher` instance used to
exercise the CBC/hex/padding pipeline on concrete inputs. -/
def idCipher : BlockCipher := ⟨fun b => b, fun b => b⟩

/-! ## Delivery Client (src/lib/facebook.ts, `sendMessage`)

The send loop performs `fetch` attempts for `attempt = 0 .. maxRetries`.
A non-2xx response throws an `Error` with the numeric status attached; the
`catch` block rethrows immediately when `400 <= status < 500` (permanent)
and otherwise sleeps `2^attempt * 1000` ms and retries while attempts
remain; after the loop the last observed error is thrown.  The network is
abstracted as `responses : Nat → FetchOutcome`, giving the outcome of the
`attempt`-th fetch call. -/

/-- Outcome of one `fetch` to the Send API: `ok` is a 2xx response whose
body parsed, `httpErr s` a non-2xx response with status `s`, and `netErr`
any error thrown without a status (a rejected `fetch` or a failing
`response.json()`). -/
inductive FetchOutcome
  | ok
  | httpErr (status : Nat)
  | netErr
deriving DecidableEq, Repr

/-- The error `sendMessage` finally throws. -/
inductive SendErr
  | http (status : Nat)
  | net
deriving DecidableEq, Repr

/-- Source constant `const maxRetries = 1` (at most one retry, two total attempts). -/
def maxRetries : Nat := 1

/-- One pass of the source's retry loop starting at index `attempt`.
Returns (final result, number of fetch calls made, backoff waits in ms).
`fuel` only makes the source's bounded `for` loop structurally recursive:
every call from `sendMessage` has `fuel = maxRetries + 1 - attempt ≥ 1`,
so the `fuel = 0` branch is never reached. -/
def sendAttempts (responses : Nat → FetchOutcome) :
    Nat → Nat → Except SendErr Unit × Nat × List Nat
  | 0, _ => (.error .net, 0, [])
  | fuel + 1, attempt =>
    match responses attempt with
    | .ok => (.ok (), 1, [])
    | .httpErr s =>
      if 400 ≤ s ∧ s < 500 then (.error (.http s), 1, [])
      else if attempt < maxRetries then
        let r := sendAttempts responses fuel (attempt + 1)
        (r.1, r.2.1 + 1, 2 ^ attempt * 1000 :: r.2.2)
      else (.error (.http s), 1, [])
    | .netErr =>
      if attempt < maxRetries then
        let r := sendAttempts responses fuel (attempt + 1)
        (r.1, r.2.1 + 1, 2 ^ attempt * 1000 :: r.2.2)
      else (.error .net, 1, [])

/-- Model of `sendMessage(pageAccessToken, recipientId, messageText)`:
the loop `for (attempt = 0; attempt <= maxRetries; attempt++)`. -/
def sendMessage (responses : Nat → FetchOutcome) :
    Except SendErr Unit × Nat × List Nat :=
  sendAttempts responses (maxRetries + 1) 0

/-- Classification used by the source's catch block: an outcome it retries
(everything thrown except a 4xx-carrying error). -/
def isTransientFailure : FetchOutcome → Bool
  | .ok => false
  | .httpErr s => !(400 ≤ s ∧ s < 500 : Bool)
  | .netErr => true

/-- The `lastError` recorded for a failed attempt. -/
def errOf : FetchOutcome → SendErr
  | .ok => .net
  | .httpErr s => .http s
  | .netErr => .net

/-! ## Pipeline Orchestrator (src/app/api/webhook/messenger/route.ts)

`POST` reads the raw body, verifies the signature, parses the JSON payload,
checks `object === 'page'` and runs `processMessagingEvent` for every
messaging event of every entry, returning 200 in every branch (the outer
`try/catch` swallows everything).  The external collaborators — the Prisma
lookups, the Gemini call, `decrypt` and `sendMessage` — are oracle fields
of `PipelineEnv`; an `Except.error` models a thrown exception.  Each run is
observed as the ordered list of side effects it performed. -/

/-- One entry of the in-memory `messageLog` (src/lib/types.ts,
`LoggedMessage`; the wall-clock `timestamp: new Date()` is outside the
model). -/
structure LoggedMessage where
  userId : Str
  pageId : Str
  senderId : Str
  messageText : Str
deriving DecidableEq, Repr

/-- The row selected from `facebookPageConnection`
(`select: { user_id, page_access_token }`). -/
structure PageConnection where
  user_id : Str
  page_access_token : Str
deriving DecidableEq, Repr

/-- Observable side effects of one webhook request, in execution order. -/
inductive Effect
  | parseCall (body : Str)
  | dbLookup (pageId : Str)
  | logAppend (m : LoggedMessage)
  | catalogFetch (userId : Str)
  | generateCall (catalog : List ProductContext) (txt : Str)
  | decryptCall (ciphertext : Str)
  | deliverCall (token recipient txt : Str)
deriving DecidableEq, Repr

/-- Oracles for the pipeline's external calls.  `Except.error e` models the
call throwing `e`. -/
structure PipelineEnv where
  lookup : Str → Except Str (Option PageConnection)
  productsFor : Str → Except Str (List ProductContext)
  generateResp : List ProductContext → Str → Except Str Str
  decryptToken : Str → Except Str Str
  sendMsg : Str → Str → Str → Except Str Unit

/-- Fields `sender: { id }` and the optional `message: { text? }` of a messaging
event (src/lib/types.ts, `MessengerEvent`; the `recipient`, `timestamp` and
`mid` fields are unused by the route). -/
structure MessageContent where
  text : Option Str
deriving DecidableEq, Repr

structure MessengerEvent where
  senderId : Str
  message : Option MessageContent
deriving DecidableEq, Repr

/-- Webhook `entry: [{ id, messaging }]` (the `time` field is unused). -/
structure MessengerWebhookEntry where
  id : Str
  messaging : List MessengerEvent
deriving DecidableEq, Repr

structure MessengerWebhookPayload where
  object : Str
  entry : List MessengerWebhookEntry
deriving DecidableEq, Repr

/-- The filter `if (!event.message || !event.message.text)`: returns the
message text only for a text event (JS truthiness also drops an empty
text). -/
def eventText (e : MessengerEvent) : Option Str :=
  match e.message with
  | none => none
  | some m =>
    match m.text with
    | none => none
    | some t => if t = [] then none else some t

/-- Model of `processMessagingEvent(event, pageId)`: returns the effect
trace and, when the event handler itself throws (only possible in the
`facebookPageConnection` lookup, which runs outside the inner `try`), the
escaping error.  The inner `try` block (catalog fetch, Gemini call,
decrypt, send) catches all its errors (`catch (chatbotError)`), so those
stages never escape: the trace simply stops at the failing stage. -/
def processMessagingEvent (env : PipelineEnv) (event : MessengerEvent)
    (pageId : Str) : List Effect × Option Str :=
  match eventText event with
  | none => ([], none)
  | some messageText =>
    match env.lookup pageId with
    | .error e => ([.dbLookup pageId], some e)
    | .ok none => ([.dbLookup pageId], none)
    | .ok (some conn) =>
      let logged : LoggedMessage := ⟨conn.user_id, pageId, event.senderId, messageText⟩
      let pre : List Effect := [.dbLookup pageId, .logAppend logged]
      match env.productsFor conn.user_id with
      | .error _ => (pre ++ [.catalogFetch conn.user_id], none)
      | .ok productContext =>
        match env.generateResp productContext messageText with
        | .error _ =>
          (pre ++ [.catalogFetch conn.user_id, .generateCall productContext messageText], none)
        | .ok aiResponse =>
          match env.decryptToken conn.page_access_token with
          | .error _ =>
            (pre ++ [.catalogFetch conn.user_id, .generateCall productContext messageText,
              .decryptCall conn.page_access_token], none)
          | .ok decryptedToken =>
            let full := pre ++ [.catalogFetch conn.user_id,
              .generateCall productContext messageText,
              .decryptCall conn.page_access_token,
              .deliverCall decryptedToken event.senderId aiResponse]
            match env.sendMsg decryptedToken event.senderId aiResponse with
            | .error _ => (full, none)
            | .ok _ => (full, none)

/-- The inner loop `for (const event of entry.messaging)`: an error escaping
one event's handler aborts the loop (and is recorded); otherwise traces
accumulate in order. -/
def processEvents (env : PipelineEnv) (pageId : Str) :
    List MessengerEvent → List Effect × Option Str
  | [] => ([], none)
  | e :: rest =>
    match processMessagingEvent env e pageId with
    | (tr, some err) => (tr, some err)
    | (tr, none) =>
      match processEvents env pageId rest with
      | (tr2, esc) => (tr ++ tr2, esc)

/-- The outer loop `for (const entry of payload.entry)`. -/
def processEntries (env : PipelineEnv) :
    List MessengerWebhookEntry → List Effect × Option Str
  | [] => ([], none)
  | ent :: rest =>
    match processEvents env ent.id ent.messaging with
    | (tr, some err) => (tr, some err)
    | (tr, none) =>
      match processEntries env rest with
      | (tr2, esc) => (tr ++ tr2, esc)

/-- The webhook POST request: raw body plus the `x-hub-signature-256`
header (`none` when absent). -/
structure WebhookRequest where
  body : Str
  signature : Option Str
deriving Repr

/-- Request-level oracles: `process.env.FACEBOOK_APP_SECRET`, the HMAC
primitive, and `JSON.parse` restricted to the payload schema (an
`Except.error` models a parse/shape failure throwing). -/
structure PostEnv where
  appSecret : Option Str
  hmacHex : Str → Str → Str
  parseBody : Str → Except Str MessengerWebhookPayload

/-- Model of the route's `POST` handler: returns the HTTP status sent to
the platform and the effect trace.  Every branch — missing secret, failed
signature, parse failure, wrong object type, or an error escaping the
entry loop (swallowed by the outer `catch`) — answers 200. -/
def POST (penv : PostEnv) (env : PipelineEnv) (req : WebhookRequest) :
    Nat × List Effect :=
  match penv.appSecret with
  | none => (200, [])
  | some secret =>
    if verifyWebhookSignature penv.hmacHex req.signature req.body secret then
      match penv.parseBody req.body with
      | .error _ => (200, [.parseCall req.body])
      | .ok payload =>
        if payload.object = "page".data then
          (200, .parseCall req.body :: (processEntries env payload.entry).1)
        else (200, [.parseCall req.body])
    else (200, [])

/-! ## Concrete instances used to exercise the model -/

/-- A concrete digest oracle (any function works: the verifier's shape
handling is independent of the digest values). -/
def hmac0 : Str → Str → Str := fun _ _ => ['a', 'b']

/-- Is `c` a hexadecimal digit? -/
def isHexDigitC (c : Char) : Bool := (hexVal? c).isSome

/-- A one-product catalog. -/
def cat0 : List ProductContext := [⟨"Red Mug".data, "$15.00".data⟩]

/-- Pipeline oracles for a run in which every stage succeeds and the
generator replies with the literal `OUT_OF_SCOPE` fallback signal. -/
def env0 : PipelineEnv where
  lookup := fun pid =>
    if pid = "page1".data then .ok (some ⟨"user1".data, "enctok".data⟩) else .ok none
  productsFor := fun _ => .ok cat0
  generateResp := fun _ _ => .ok outOfScopeSignal
  decryptToken := fun _ => .ok "dectok".data
  sendMsg := fun _ _ _ => .ok ()

/-- Pipeline oracles whose channel lookup throws (`findUnique` rejecting). -/
def envThrow : PipelineEnv where
  lookup := fun _ => .error "db down".data
  productsFor := fun _ => .ok []
  generateResp := fun _ _ => .ok "hi".data
  decryptToken := fun t => .ok t
  sendMsg := fun _ _ _ => .ok ()

/-- A concrete text messaging event. -/
def ev0 : MessengerEvent := ⟨"psid1".data, some ⟨some "hello".data⟩⟩

/-- Request-level oracles with a configured secret and a parser that accepts
a fixed one-event payload. -/
def penv0 : PostEnv where
  appSecret := some "secret".data
  hmacHex := hmac0
  parseBody := fun _ => .ok ⟨"page".data, [⟨"page1".data, [ev0]⟩]⟩

/-- Delivery outcomes: the Send API answers 429 on every attempt. -/
def resp429 : Nat → FetchOutcome := fun _ => .httpErr 429

/-- Delivery outcomes: 500 on every attempt. -/
def resp500 : Nat → FetchOutcome := fun _ => .httpErr 500

/-- Delivery outcomes: 500 on the first attempt, 200 on the retry. -/
def resp500then200 : Nat → FetchOutcome := fun n => if n = 0 then .httpErr 500 else .ok

/-- Ciphertext segment with trailing non-hex junk: Node hex decoding
truncates at `'z'`, leaving the 16 zero bytes that precede it. -/
def cexIvSeg : Str := bytesToHex (List.replicate 16 0) ++ ['z', 'z']

/-- Hex of the CBC encryption (under `idCipher`, zero IV) of the empty
plaintext: one full padding block of bytes `0x10`. -/
def cexCtSeg : Str := bytesToHex (List.replicate 16 16)

/-- A `decrypt` input whose IV segment is not valid hex. -/
def cexInput : Str := cexIvSeg ++ ':' :: cexCtSeg

/-! ## Lemmas about the `'sha256='` split -/

theorem startsWithL_append_self (p t : Str) : startsWithL p (p ++ t) = true := by
  induction p with
  | nil => rfl
  | cons c cs ih => simp [startsWithL, ih]

theorem splitSig_marker (t : Str) : splitSig (sigMarker ++ t) = [] :: splitSig t := by
  have h : sigMarker ++ t = 's' :: ('h' :: 'a' :: '2' :: '5' :: '6' :: '=' :: t) := rfl
  rw [h, splitSig]
  rw [if_pos (show startsWithL sigMarker ('s' :: 'h' :: 'a' :: '2' :: '5' :: '6' :: '=' :: t)
    = true from rfl)]
  rfl

theorem splitSig_no_marker (s : Str) (h : containsSig s = false) : splitSig s = [s] := by
  induction s with
  | nil => rw [splitSig]
  | cons c rest ih =>
    simp only [containsSig, Bool.or_eq_false_iff] at h
    rw [splitSig, if_neg (by simp [h.1]), ih h.2]

theorem splitSig_junk (pre t : Str) (h : ∀ c ∈ pre, c ≠ 's') :
    splitSig (pre ++ (sigMarker ++ t)) = pre :: splitSig t := by
  induction pre with
  | nil => simpa using splitSig_marker t
  | cons c rest ih =>
    have hc : c ≠ 's' := h c (by simp)
    have hrest : ∀ x ∈ rest, x ≠ 's' := fun x hx => h x (by simp [hx])
    have hsw : startsWithL sigMarker (c :: (rest ++ (sigMarker ++ t))) = false := by
      simp only [sigMarker, startsWithL, Bool.and_eq_false_iff]
      left
      simpa using fun hh => hc hh.symm
    rw [List.cons_append, splitSig, if_neg (by simp [hsw]), ih hrest]

/-- C3: the claim's exact-form iff fails on the code.  The source extracts
the received digest with `signature.split('sha256=')[1]`, so a header with
extra characters before `'sha256='` — here `Xsha256=ab` — still verifies
although it does not have the literal form `sha256=<hex digest>`. -/
theorem verify_leading_junk_cex :
    verifyWebhookSignature hmac0 (some (['X'] ++ (sigMarker ++ ['a', 'b']))) [] [] = true
    ∧ ['X'] ++ (sigMarker ++ ['a', 'b']) ≠ sigMarker ++ hmac0 [] [] := by
  have h1 : splitSig (['X'] ++ (sigMarker ++ ['a', 'b'])) = ['X'] :: splitSig ['a', 'b'] :=
    splitSig_junk ['X'] ['a', 'b'] (by decide)
  have h2 : splitSig (['a', 'b'] : Str) = [['a', 'b']] := splitSig_no_marker _ (by decide)
  refine ⟨?_, by decide⟩
  simp only [verifyWebhookSignature]
  rw [if_neg (by decide), h1, h2]
  decide

/-- C3 (amended): `verify` returns `false`, without raising, for a missing,
empty, or `'sha256='`-free header; a header `sha256=<h>` (nonempty `<h>`,
no nested marker) verifies exactly when `<h>` equals the hex HMAC digest;
extra leading characters before the marker do not cause rejection; and a
received digest whose length differs from the expected digest is a
non-match, not an error. -/
theorem verifyWebhookSignature_characterization
    (hmacHex : Str → Str → Str) (body secret : Str) :
    verifyWebhookSignature hmacHex none body secret = false
    ∧ verifyWebhookSignature hmacHex (some []) body secret = false
    ∧ (∀ sig : Str, containsSig sig = false →
        verifyWebhookSignature hmacHex (some sig) body secret = false)
    ∧ (∀ d : Str, d ≠ [] → containsSig d = false →
        verifyWebhookSignature hmacHex (some (sigMarker ++ d)) body secret
          = decide (d = hmacHex secret body))
    ∧ (∀ pre d : Str, (∀ c ∈ pre, c ≠ 's') → d ≠ [] → containsSig d = false →
        verifyWebhookSignature hmacHex (some (pre ++ (sigMarker ++ d))) body secret
          = decide (d = hmacHex secret body))
    ∧ (∀ d : Str, d ≠ [] → containsSig d = false →
        d.length ≠ (hmacHex secret body).length →
        verifyWebhookSignature hmacHex (some (sigMarker ++ d)) body secret = false) := by
  have base : ∀ pre d : Str, (∀ c ∈ pre, c ≠ 's') → d ≠ [] → containsSig d = false →
      verifyWebhookSignature hmacHex (some (pre ++ (sigMarker ++ d))) body secret
        = decide (d = hmacHex secret body) := by
    intro pre d hpre hd hnom
    simp only [verifyWebhookSignature]
    rw [if_neg (by simp [hd]), splitSig_junk pre d hpre, splitSig_no_marker d hnom]
    simp [hd]
  refine ⟨rfl, rfl, ?_, ?_, base, ?_⟩
  · intro sig h
    by_cases hs : sig = []
    · subst hs; rfl
    · simp only [verifyWebhookSignature]
      rw [if_neg hs, splitSig_no_marker sig h]
      rfl
  · intro d hd hnom
    simpa using base [] d (by simp) hd hnom
  · intro d hd hnom hlen
    rw [show sigMarker ++ d = [] ++ (sigMarker ++ d) from rfl,
      base [] d (by simp) hd hnom]
    exact decide_eq_false fun hEq => hlen (by rw [hEq])

/-- C3 witness: a correctly-shaped header with the matching digest
verifies. -/
theorem verifyWebhookSignature_characterization_witness :
    verifyWebhookSignature hmac0 (some (sigMarker ++ ['a', 'b'])) [] [] = true := by
  rw [(verifyWebhookSignature_characterization hmac0 [] []).2.2.2.1
    ['a', 'b'] (by decide) (by decide)]
  decide

/-! ## Classifier theorems -/

/-- C4: for a nonempty (after trimming) answer the classifier is total and
matches signals only as prefixes of the trimmed answer: an `OUT_OF_SCOPE`
prefix yields the fixed redirect; an `ALTERNATIVE:` prefix whose extracted,
trimmed product name is found by exact equality yields the alternative
template with `suggestedProduct` the matched name; every other case —
unmatched or unextractable name, or no signal prefix (including a signal
mid-sentence) — yields the trimmed answer verbatim, never an error. -/
theorem parseGeminiResponse_cases (ans : Str) (cat : List ProductContext)
    (hne : jsTrim ans ≠ []) :
    (startsWithL outOfScopeSignal (jsTrim ans) = true →
      parseGeminiResponse ans cat = .ok ⟨.outOfScope, outOfScopeMessage, none⟩)
    ∧ (startsWithL outOfScopeSignal (jsTrim ans) = false →
       startsWithL altSignalMark (jsTrim ans) = true →
       ∀ nm product, altExtract (jsTrim ans) = some nm →
         cat.find? (fun p => p.name == nm) = some product →
         parseGeminiResponse ans cat
           = .ok ⟨.alternative, alternativeSuggestionMessage product, some nm⟩
         ∧ product.name = nm)
    ∧ (startsWithL outOfScopeSignal (jsTrim ans) = false →
       startsWithL altSignalMark (jsTrim ans) = true →
       ∀ nm, altExtract (jsTrim ans) = some nm →
         cat.find? (fun p => p.name == nm) = none →
         parseGeminiResponse ans cat = .ok ⟨.normal, jsTrim ans, none⟩)
    ∧ (startsWithL outOfScopeSignal (jsTrim ans) = false →
       startsWithL altSignalMark (jsTrim ans) = true →
       altExtract (jsTrim ans) = none →
       parseGeminiResponse ans cat = .ok ⟨.normal, jsTrim ans, none⟩)
    ∧ (startsWithL outOfScopeSignal (jsTrim ans) = false →
       startsWithL altSignalMark (jsTrim ans) = false →
       parseGeminiResponse ans cat = .ok ⟨.normal, jsTrim ans, none⟩) := by
  refine ⟨?_, ?_, ?_, ?_, ?_⟩
  · intro h1
    simp [parseGeminiResponse, hne, h1]
  · intro h1 h2 nm product hex hfind
    have hb : (product.name == nm) = true :=
      @List.find?_some ProductContext (fun p => p.name == nm) product cat hfind
    refine ⟨?_, eq_of_beq hb⟩
    simp [parseGeminiResponse, hne, h1, h2, hex, hfind]
  · intro h1 h2 nm hex hfind
    simp [parseGeminiResponse, hne, h1, h2, hex, hfind]
  · intro h1 h2 hex
    simp [parseGeminiResponse, hne, h1, h2, hex]
  · intro h1 h2
    simp [parseGeminiResponse, hne, h1, h2]

/-- C4 witness: `ALTERNATIVE: Red Mug` against a catalog containing
`Red Mug` is classified as an alternative suggestion. -/
theorem parseGeminiResponse_cases_witness :
    parseGeminiResponse ("ALTERNATIVE: Red Mug".data) cat0
      = .ok ⟨.alternative, alternativeSuggestionMessage ⟨"Red Mug".data, "$15.00".data⟩,
          some "Red Mug".data⟩ :=
  ((parseGeminiResponse_cases "ALTERNATIVE: Red Mug".data cat0 (by decide)).2.1
    (by decide) (by decide) "Red Mug".data ⟨"Red Mug".data, "$15.00".data⟩
    (by decide) (by decide)).1

/-! ## Delivery Client theorems -/

theorem sendAttempts_last (responses : Nat → FetchOutcome) (attempt : Nat)
    (h : ¬ attempt < maxRetries) :
    sendAttempts responses 1 attempt =
      (match responses attempt with
       | .ok => (.ok (), 1, [])
       | .httpErr s => (.error (.http s), 1, [])
       | .netErr => (.error .net, 1, [])) := by
  cases hr : responses attempt with
  | ok => simp [sendAttempts, hr]
  | httpErr s =>
    simp only [sendAttempts, hr]
    split
    · rfl
    · simp [h]
  | netErr => simp [sendAttempts, hr, h]

theorem sendAttempts_zero_step (responses : Nat → FetchOutcome) :
    sendAttempts responses 2 0 =
      (match responses 0 with
       | .ok => (.ok (), 1, [])
       | .httpErr s =>
         if 400 ≤ s ∧ s < 500 then (.error (.http s), 1, [])
         else ((sendAttempts responses 1 1).1, (sendAttempts responses 1 1).2.1 + 1,
               1000 :: (sendAttempts responses 1 1).2.2)
       | .netErr => ((sendAttempts responses 1 1).1, (sendAttempts responses 1 1).2.1 + 1,
               1000 :: (sendAttempts responses 1 1).2.2)) := rfl

/-- C2: the claim that a 429 is transient and retried fails on the code:
the catch block rethrows every status in 400–499 immediately, so a 429
reply causes exactly one send attempt, no backoff, and a permanent error
carrying status 429. -/
theorem sendMessage_429_cex :
    sendMessage resp429 = (.error (.http 429), 1, [])
    ∧ (sendMessage resp429).2.1 ≠ 2 := by
  exact ⟨rfl, by decide⟩

/-- C2 (amended): a 2xx first response succeeds with one call; every status
in 400–499 — including 429, 401 and 403 — fails immediately with a
permanent error carrying the status and is never retried; every other
failure (5xx and other non-2xx statuses, and network-level errors) triggers
exactly one retry after a 1000 ms backoff. -/
theorem sendMessage_status_buckets (responses : Nat → FetchOutcome) :
    (responses 0 = .ok → sendMessage responses = (.ok (), 1, []))
    ∧ (∀ s, responses 0 = .httpErr s → 400 ≤ s → s < 500 →
        sendMessage responses = (.error (.http s), 1, []))
    ∧ (∀ s, responses 0 = .httpErr s → ¬(400 ≤ s ∧ s < 500) →
        (sendMessage responses).2.1 = 2 ∧ (sendMessage responses).2.2 = [1000])
    ∧ (responses 0 = .netErr →
        (sendMessage responses).2.1 = 2 ∧ (sendMessage responses).2.2 = [1000]) := by
  have hmsg : sendMessage responses = sendAttempts responses 2 0 := rfl
  have hlast := sendAttempts_last responses 1 (by simp [maxRetries])
  refine ⟨?_, ?_, ?_, ?_⟩
  · intro h0
    rw [hmsg, sendAttempts_zero_step, h0]
  · intro s h0 h4a h4b
    rw [hmsg, sendAttempts_zero_step, h0]
    simp only []
    rw [if_pos ⟨h4a, h4b⟩]
  · intro s h0 hns
    rw [hmsg, sendAttempts_zero_step, h0]
    simp only []
    rw [if_neg hns, hlast]
    cases responses 1 <;> simp
  · intro h0
    rw [hmsg, sendAttempts_zero_step, h0]
    simp only []
    rw [hlast]
    cases responses 1 <;> simp

/-- C2 witness: a 500 first response is retried (two calls, one 1000 ms
backoff). -/
theorem sendMessage_status_buckets_witness :
    (sendMessage resp500).2.1 = 2 ∧ (sendMessage resp500).2.2 = [1000] :=
  (sendMessage_status_buckets resp500).2.2.1 500 rfl (by decide)

/-- C7: when both attempts fail transiently the client makes exactly two
fetch calls with one 1000 ms backoff (`2^0 * 1000`) and fails with the
error observed on the last attempt; when the first attempt fails
transiently and the retry answers 2xx, exactly two calls are made and the
delivery succeeds. -/
theorem sendMessage_retry_policy (responses : Nat → FetchOutcome)
    (h0 : isTransientFailure (responses 0) = true) :
    (isTransientFailure (responses 1) = true →
      sendMessage responses = (.error (errOf (responses 1)), 2, [1000]))
    ∧ (responses 1 = .ok → sendMessage responses = (.ok (), 2, [1000])) := by
  have hlast := sendAttempts_last responses 1 (by simp [maxRetries])
  have hmain : sendMessage responses
      = ((sendAttempts responses 1 1).1, (sendAttempts responses 1 1).2.1 + 1,
          1000 :: (sendAttempts responses 1 1).2.2) := by
    have hmsg : sendMessage responses = sendAttempts responses 2 0 := rfl
    cases hr0 : responses 0 with
    | ok => rw [hr0] at h0; simp [isTransientFailure] at h0
    | httpErr s =>
      have hns : ¬(400 ≤ s ∧ s < 500) := by
        rw [hr0] at h0
        simp only [isTransientFailure, Bool.not_eq_true'] at h0
        exact of_decide_eq_false h0
      rw [hmsg, sendAttempts_zero_step, hr0]
      simp only []
      rw [if_neg hns]
    | netErr => rw [hmsg, sendAttempts_zero_step, hr0]
  constructor
  · intro h1
    rw [hmain, hlast]
    cases hr1 : responses 1 with
    | ok => rw [hr1] at h1; simp [isTransientFailure] at h1
    | httpErr s => simp [errOf]
    | netErr => simp [errOf]
  · intro h1
    rw [hmain, hlast, h1]

/-- C7 witness: 500 then 200 — two calls, one backoff, success. -/
theorem sendMessage_retry_policy_witness :
    sendMessage resp500then200 = (.ok (), 2, [1000]) :=
  (sendMessage_retry_policy resp500then200 (by decide)).2 rfl

/-! ## Pipeline theorems -/

theorem POST_status (penv : PostEnv) (env : PipelineEnv) (req : WebhookRequest) :
    (POST penv env req).1 = 200 := by
  unfold POST
  split
  · rfl
  · split
    · split
      · rfl
      · split
        · rfl
        · rfl
    · rfl

/-- C1: the pipeline's order and delivered text differ from the claim.  On
a run in which every stage succeeds and the generator answers with the raw
`OUT_OF_SCOPE` token, the customer receives that raw token — not the
classifier's redirect text (`parseGeminiResponse` is never invoked by the
route) — and the log append happens right after the channel lookup, before
the catalog fetch and the delivery, not after the delivery. -/
theorem pipeline_not_classified_cex :
    processMessagingEvent env0 ev0 "page1".data
      = ([.dbLookup "page1".data,
          .logAppend ⟨"user1".data, "page1".data, "psid1".data, "hello".data⟩,
          .catalogFetch "user1".data,
          .generateCall cat0 "hello".data,
          .decryptCall "enctok".data,
          .deliverCall "dectok".data "psid1".data outOfScopeSignal], none)
    ∧ parseGeminiResponse outOfScopeSignal cat0
        = .ok ⟨.outOfScope, outOfScopeMessage, none⟩
    ∧ outOfScopeSignal ≠ outOfScopeMessage := by
  refine ⟨rfl, by decide, by decide⟩

/-- C1 (amended): for every text event whose lookup, catalog fetch,
generation and decryption succeed, the stages run in the order
lookup → log append → catalog fetch → generate → decrypt → deliver, and
the text handed to the Delivery Client is the raw generator output (the
Response Classifier is not part of the pipeline; the log append precedes
the catalog fetch and the delivery). -/
theorem processMessagingEvent_success_trace (env : PipelineEnv)
    (event : MessengerEvent) (pageId txt : Str) (conn : PageConnection)
    (prods : List ProductContext) (ai tok : Str)
    (htxt : eventText event = some txt)
    (hlook : env.lookup pageId = .ok (some conn))
    (hprod : env.productsFor conn.user_id = .ok prods)
    (hgen : env.generateResp prods txt = .ok ai)
    (hdec : env.decryptToken conn.page_access_token = .ok tok) :
    processMessagingEvent env event pageId
      = ([.dbLookup pageId,
          .logAppend ⟨conn.user_id, pageId, event.senderId, txt⟩,
          .catalogFetch conn.user_id,
          .generateCall prods txt,
          .decryptCall conn.page_access_token,
          .deliverCall tok event.senderId ai], none) := by
  simp only [processMessagingEvent, htxt, hlook, hprod, hgen, hdec]
  cases env.sendMsg tok event.senderId ai <;> rfl

/-- C1 witness: a concrete all-stages-succeed run realizing the amended
trace. -/
theorem processMessagingEvent_success_trace_witness :
    processMessagingEvent env0 ev0 "page1".data
      = ([.dbLookup "page1".data,
          .logAppend ⟨"user1".data, "page1".data, "psid1".data, "hello".data⟩,
          .catalogFetch "user1".data,
          .generateCall cat0 "hello".data,
          .decryptCall "enctok".data,
          .deliverCall "dectok".data "psid1".data outOfScopeSignal], none) :=
  processMessagingEvent_success_trace env0 ev0 "page1".data "hello".data
    ⟨"user1".data, "enctok".data⟩ cat0 outOfScopeSignal "dectok".data
    rfl (by decide) rfl rfl rfl

/-- C8: the POST handler answers 200 on every input — missing secret,
failed signature, unparseable body, wrong object type, or any error
escaping event processing — and a failed (or unverifiable) signature
causes no processing side effects at all: no body parse, no catalog fetch,
no generation call. -/
theorem webhook_post_always_ack (penv : PostEnv) (env : PipelineEnv)
    (req : WebhookRequest) :
    (POST penv env req).1 = 200
    ∧ (∀ secret, penv.appSecret = some secret →
        verifyWebhookSignature penv.hmacHex req.signature req.body secret = false →
        (POST penv env req).2 = [])
    ∧ (penv.appSecret = none → (POST penv env req).2 = []) := by
  refine ⟨POST_status penv env req, ?_, ?_⟩
  · intro secret hsec hver
    simp [POST, hsec, hver]
  · intro hsec
    simp [POST, hsec]

/-- C8 witness: a request with a missing signature header is acknowledged
with 200 and leaves no trace. -/
theorem webhook_post_always_ack_witness :
    (POST penv0 env0 ⟨"body".data, none⟩).1 = 200
    ∧ (POST penv0 env0 ⟨"body".data, none⟩).2 = [] :=
  ⟨(webhook_post_always_ack penv0 env0 ⟨"body".data, none⟩).1,
   (webhook_post_always_ack penv0 env0 ⟨"body".data, none⟩).2.1 "secret".data rfl rfl⟩

/-- C10: an exception thrown by the channel lookup escapes
`processMessagingEvent` (the lookup runs outside the inner try), so the
remaining events of the same payload are skipped, while the endpoint still
answers 200; when the lookup does not throw, nothing escapes the handler —
catalog, generation, decryption and delivery failures are caught per event
— and the following events are still processed. -/
theorem lookup_failure_skips_rest (env : PipelineEnv) (pid txt err : Str)
    (e : MessengerEvent) (rest : List MessengerEvent)
    (entries : List MessengerWebhookEntry) :
    (eventText e = some txt → env.lookup pid = .error err →
      processEvents env pid (e :: rest) = ([.dbLookup pid], some err)
      ∧ processEntries env (⟨pid, e :: rest⟩ :: entries) = ([.dbLookup pid], some err))
    ∧ (∀ r, env.lookup pid = .ok r →
        (processMessagingEvent env e pid).2 = none
        ∧ processEvents env pid (e :: rest)
            = ((processMessagingEvent env e pid).1 ++ (processEvents env pid rest).1,
               (processEvents env pid rest).2))
    ∧ (∀ penv req, (POST penv env req).1 = 200) := by
  refine ⟨?_, ?_, fun penv req => POST_status penv env req⟩
  · intro htxt herr
    have hpe : processMessagingEvent env e pid = ([.dbLookup pid], some err) := by
      simp only [processMessagingEvent, htxt, herr]
    constructor
    · simp only [processEvents, hpe]
    · simp only [processEntries, processEvents, hpe]
  · intro r hr
    have hsnd : (processMessagingEvent env e pid).2 = none := by
      simp only [processMessagingEvent]
      cases htxt : eventText e with
      | none => rfl
      | some txt2 =>
        simp only [hr]
        cases r with
        | none => rfl
        | some conn =>
          simp only []
          cases hprod : env.productsFor conn.user_id with
          | error e2 => simp [hprod]
          | ok prods =>
            simp only [hprod]
            cases hgen : env.generateResp prods txt2 with
            | error e2 => simp [hgen]
            | ok ai =>
              simp only [hgen]
              cases hdec : env.decryptToken conn.page_access_token with
              | error e2 => simp [hdec]
              | ok tok =>
                simp only [hdec]
                cases hsend : env.sendMsg tok e.senderId ai <;> simp [hsend]
    refine ⟨hsnd, ?_⟩
    rcases hpe : processMessagingEvent env e pid with ⟨tr, esc⟩
    rw [hpe] at hsnd
    simp only at hsnd
    subst hsnd
    rcases hrest : processEvents env pid rest with ⟨tr2, esc2⟩
    simp [processEvents, hpe, hrest]

/-- C10 witness: a throwing lookup aborts the event loop after the first
event. -/
theorem lookup_failure_skips_rest_witness :
    processEvents envThrow "page1".data [ev0, ev0]
      = ([.dbLookup "page1".data], some "db down".data) :=
  ((lookup_failure_skips_rest envThrow "page1".data "hello".data "db down".data
    ev0 [ev0] []).1 rfl rfl).1

/-! ## Hex and split lemmas for the Credential Cipher -/

theorem hexVal?_hexDigitChar (n : Nat) (h : n < 16) : hexVal? (hexDigitChar n) = some n := by
  interval_cases n <;> rfl

theorem hexDigitChar_ne_colon (n : Nat) (h : n < 16) : hexDigitChar n ≠ ':' := by
  interval_cases n <;> decide

theorem bytesToHex_cons (b : Nat) (bs : List Nat) :
    bytesToHex (b :: bs) = byteToHex b ++ bytesToHex bs := rfl

theorem byteToHex_roundtrip (b : Nat) (h : b < 256) (rest : Str) :
    hexToBytesNode (byteToHex b ++ rest) = b :: hexToBytesNode rest := by
  have h1 : b / 16 < 16 := Nat.div_lt_of_lt_mul (by omega)
  have h2 : b % 16 < 16 := Nat.mod_lt _ (by norm_num)
  simp only [byteToHex, List.cons_append, List.nil_append, hexToBytesNode,
    hexVal?_hexDigitChar _ h1, hexVal?_hexDigitChar _ h2]
  congr 1
  omega

theorem bytesToHex_roundtrip_append (l : List Nat) (h : ∀ x ∈ l, x < 256) (rest : Str) :
    hexToBytesNode (bytesToHex l ++ rest) = l ++ hexToBytesNode rest := by
  induction l with
  | nil => rfl
  | cons b bs ih =>
    have hb : b < 256 := h b (by simp)
    have hbs : ∀ x ∈ bs, x < 256 := fun x hx => h x (by simp [hx])
    rw [bytesToHex_cons, List.append_assoc, byteToHex_roundtrip b hb, ih hbs]
    rfl

theorem hexToBytes_bytesToHex (l : List Nat) (h : ∀ x ∈ l, x < 256) :
    hexToBytesNode (bytesToHex l) = l := by
  have h0 : hexToBytesNode [] = [] := rfl
  simpa [h0] using bytesToHex_roundtrip_append l h []

theorem bytesToHex_length (l : List Nat) : (bytesToHex l).length = 2 * l.length := by
  induction l with
  | nil => rfl
  | cons b bs ih =>
    rw [bytesToHex_cons]
    simp [byteToHex, ih]
    omega

theorem colon_not_mem_bytesToHex (l : List Nat) (h : ∀ x ∈ l, x < 256) :
    ':' ∉ bytesToHex l := by
  induction l with
  | nil => simp [bytesToHex]
  | cons b bs ih =>
    have hb : b < 256 := h b (by simp)
    have h1 : b / 16 < 16 := Nat.div_lt_of_lt_mul (by omega)
    have h2 : b % 16 < 16 := Nat.mod_lt _ (by norm_num)
    rw [bytesToHex_cons]
    intro hmem
    rcases List.mem_append.mp hmem with hin | hin
    · simp only [byteToHex, List.mem_cons, List.not_mem_nil, or_false] at hin
      rcases hin with he | he
      · exact hexDigitChar_ne_colon _ h1 he.symm
      · exact hexDigitChar_ne_colon _ h2 he.symm
    · exact ih (fun x hx => h x (by simp [hx])) hin

theorem splitOnCharL_not_mem (sep : Char) (s : Str) (h : sep ∉ s) :
    splitOnCharL sep s = [s] := by
  induction s with
  | nil => rfl
  | cons c rest ih =>
    have hc : ¬ c = sep := fun he => h (by simp [he])
    have hr : sep ∉ rest := fun hx => h (by simp [hx])
    simp only [splitOnCharL, if_neg hc, ih hr]

theorem splitOnCharL_append (sep : Char) (a b : Str) (ha : sep ∉ a) :
    splitOnCharL sep (a ++ sep :: b) = a :: splitOnCharL sep b := by
  induction a with
  | nil => simp [splitOnCharL]
  | cons c rest ih =>
    have hc : ¬ c = sep := fun he => ha (by simp [he])
    have hr : sep ∉ rest := fun hx => ha (by simp [hx])
    simp only [List.cons_append, splitOnCharL, List.append_eq, if_neg hc, ih hr]

/-! ## Block, padding and CBC lemmas -/

theorem chunk16_nil : chunk16 [] = [] := by rw [chunk16]

theorem chunk16_append16 (b rest : List Nat) (hb : b.length = 16) :
    chunk16 (b ++ rest) = b :: chunk16 rest := by
  have ht : (b ++ rest).take 16 = b := by rw [← hb]; exact List.take_left b rest
  have hd : (b ++ rest).drop 16 = rest := by rw [← hb]; exact List.drop_left b rest
  cases b with
  | nil => simp at hb
  | cons x xs =>
    rw [List.cons_append, chunk16, ← List.cons_append, ht, hd]

theorem chunk16_flatten (bs : List (List Nat)) (h : ∀ b ∈ bs, b.length = 16) :
    chunk16 bs.flatten = bs := by
  induction bs with
  | nil => simpa using chunk16_nil
  | cons b rest ih =>
    rw [List.flatten_cons, chunk16_append16 b _ (h b (by simp)),
      ih (fun x hx => h x (by simp [hx]))]

theorem flatten_chunk16 (l : List Nat) : (chunk16 l).flatten = l := by
  induction l using chunk16.induct with
  | case1 => rw [chunk16]; rfl
  | case2 x rest ih => rw [chunk16, List.flatten_cons, ih, List.take_append_drop]

theorem chunk16_length_mem (l : List Nat) :
    l.length % 16 = 0 → ∀ b ∈ chunk16 l, b.length = 16 := by
  induction l using chunk16.induct with
  | case1 => intro _ b hb; rw [chunk16_nil] at hb; simp at hb
  | case2 x rest ih =>
    intro hl b hb
    have hlen : 16 ≤ (x :: rest).length := by
      have h1 : (x :: rest).length ≠ 0 := by simp
      omega
    rw [chunk16] at hb
    rcases List.mem_cons.mp hb with h | h
    · subst h
      rw [List.length_take]
      omega
    · have hdl : ((x :: rest).drop 16).length = (x :: rest).length - 16 := by simp
      refine ih ?_ b h
      rw [hdl]
      omega

theorem pkcs7Pad_length (d : List Nat) :
    (pkcs7Pad d).length = d.length + (16 - d.length % 16) := by
  simp [pkcs7Pad]

theorem pkcs7Pad_length_mod (d : List Nat) : (pkcs7Pad d).length % 16 = 0 := by
  rw [pkcs7Pad_length]
  omega

theorem pkcs7Pad_ne_nil (d : List Nat) : pkcs7Pad d ≠ [] := by
  intro h
  have := congrArg List.length h
  rw [pkcs7Pad_length] at this
  simp at this
  omega

theorem pkcs7Pad_lt (d : List Nat) (h : ∀ x ∈ d, x < 256) :
    ∀ x ∈ pkcs7Pad d, x < 256 := by
  intro x hx
  rcases List.mem_append.mp hx with hin | hin
  · exact h x hin
  · have := (List.mem_replicate.mp hin).2
    omega

theorem pkcs7Unpad_pad (d : List Nat) : pkcs7Unpad (pkcs7Pad d) = some d := by
  have hmod : d.length % 16 < 16 := Nat.mod_lt _ (by norm_num)
  have hk1 : 1 ≤ 16 - d.length % 16 := by omega
  have hrep : (List.replicate (16 - d.length % 16) (16 - d.length % 16) : List Nat) ≠ [] := by
    simp
    omega
  have hlast : (pkcs7Pad d).getLast? = some (16 - d.length % 16) := by
    rw [pkcs7Pad, List.getLast?_append_of_ne_nil _ hrep]
    rcases Nat.exists_eq_add_of_le hk1 with ⟨k, hk⟩
    rw [hk]
    rw [show 1 + k = k + 1 from by omega, List.replicate_succ', List.getLast?_concat]
  have hsub : (pkcs7Pad d).length - (16 - d.length % 16) = d.length := by
    rw [pkcs7Pad_length]
    omega
  simp only [pkcs7Unpad, hlast, hsub]
  rw [if_pos]
  · rw [pkcs7Pad]
    congr 1
    exact List.take_left d _
  · refine ⟨hk1, by omega, ?_, ?_⟩
    · rw [pkcs7Pad_length]; omega
    · rw [pkcs7Pad, List.drop_left d _]
      simp [List.all_eq_true, List.mem_replicate]

theorem xorBytes_length (a b : List Nat) :
    (xorBytes a b).length = min a.length b.length := by
  simp [xorBytes]

theorem xorBytes_cancel (a b : List Nat) (h : a.length = b.length) :
    xorBytes a (xorBytes a b) = b := by
  induction a generalizing b with
  | nil =>
    cases b with
    | nil => rfl
    | cons y ys => simp at h
  | cons x xs ih =>
    cases b with
    | nil => simp at h
    | cons y ys =>
      simp only [xorBytes, List.zipWith_cons_cons] at *
      rw [Nat.xor_cancel_left]
      exact congrArg _ (ih ys (by simpa using h))

theorem xorBytes_lt : ∀ (a b : List Nat), (∀ x ∈ a, x < 256) →
    (∀ x ∈ b, x < 256) → ∀ x ∈ xorBytes a b, x < 256 := by
  intro a
  induction a with
  | nil => intro b _ _; simp [xorBytes]
  | cons x xs ih =>
    intro b ha hb
    cases b with
    | nil => simp [xorBytes]
    | cons y ys =>
      simp only [xorBytes, List.zipWith_cons_cons, List.mem_cons]
      rintro z (hz | hz)
      · subst hz
        have hx : x < 2 ^ 8 := by have := ha x (by simp); omega
        have hy : y < 2 ^ 8 := by have := hb y (by simp); omega
        have := Nat.xor_lt_two_pow hx hy
        omega
      · exact ih ys (fun w hw => ha w (by simp [hw])) (fun w hw => hb w (by simp [hw])) z hz

theorem cbcEncBlocks_count (C : BlockCipher) :
    ∀ (bs : List (List Nat)) (prev : List Nat),
      (cbcEncBlocks C prev bs).length = bs.length := by
  intro bs
  induction bs with
  | nil => intro prev; rfl
  | cons b rest ih => intro prev; simp only [cbcEncBlocks, List.length_cons, ih]

theorem cbcEncBlocks_length (C : BlockCipher) (hC : GoodCipher C) :
    ∀ (bs : List (List Nat)) (prev : List Nat), prev.length = 16 →
      (∀ b ∈ bs, b.length = 16) →
      ∀ cb ∈ cbcEncBlocks C prev bs, cb.length = 16 := by
  intro bs
  induction bs with
  | nil => intro prev _ _ cb hcb; simp [cbcEncBlocks] at hcb
  | cons b rest ih =>
    intro prev hprev hbs cb hcb
    have hxlen : (xorBytes prev b).length = 16 := by
      rw [xorBytes_length, hprev, hbs b (by simp)]
      simp
    have hclen : (C.encBlock (xorBytes prev b)).length = 16 := hC.enc_len _ hxlen
    simp only [cbcEncBlocks, List.mem_cons] at hcb
    rcases hcb with h | h
    · rw [h]; exact hclen
    · exact ih _ hclen (fun z hz => hbs z (by simp [hz])) cb h

theorem cbcEncBlocks_lt (C : BlockCipher) (hC : GoodCipher C) :
    ∀ (bs : List (List Nat)) (prev : List Nat), prev.length = 16 →
      (∀ x ∈ prev, x < 256) → (∀ b ∈ bs, b.length = 16) →
      (∀ b ∈ bs, ∀ x ∈ b, x < 256) →
      ∀ cb ∈ cbcEncBlocks C prev bs, ∀ x ∈ cb, x < 256 := by
  intro bs
  induction bs with
  | nil => intro prev _ _ _ _ cb hcb; simp [cbcEncBlocks] at hcb
  | cons b rest ih =>
    intro prev hplen hplt hbs hblt cb hcb
    have hxlen : (xorBytes prev b).length = 16 := by
      rw [xorBytes_length, hplen, hbs b (by simp)]
      simp
    have hxlt : ∀ x ∈ xorBytes prev b, x < 256 :=
      xorBytes_lt prev b hplt (hblt b (by simp))
    have hclen := hC.enc_len _ hxlen
    have hclt : ∀ x ∈ C.encBlock (xorBytes prev b), x < 256 :=
      hC.enc_lt _ hxlen hxlt
    simp only [cbcEncBlocks, List.mem_cons] at hcb
    rcases hcb with h | h
    · intro x hx
      exact hclt x (h ▸ hx)
    · exact ih _ hclen hclt (fun z hz => hbs z (by simp [hz]))
        (fun z hz => hblt z (by simp [hz])) cb h

theorem cbcDecBlocks_cbcEncBlocks (C : BlockCipher) (hC : GoodCipher C) :
    ∀ (bs : List (List Nat)) (prev : List Nat), prev.length = 16 →
      (∀ b ∈ bs, b.length = 16) →
      cbcDecBlocks C prev (cbcEncBlocks C prev bs) = bs := by
  intro bs
  induction bs with
  | nil => intro prev _ _; rfl
  | cons b rest ih =>
    intro prev hprev hbs
    have hblen : b.length = 16 := hbs b (by simp)
    have hxlen : (xorBytes prev b).length = 16 := by
      rw [xorBytes_length, hprev, hblen]
      simp
    simp only [cbcEncBlocks, cbcDecBlocks]
    rw [hC.dec_enc _ hxlen, xorBytes_cancel prev b (by rw [hprev, hblen]),
      ih _ (hC.enc_len _ hxlen) (fun z hz => hbs z (by simp [hz]))]

theorem flatten_len16 (bs : List (List Nat)) (h : ∀ b ∈ bs, b.length = 16) :
    bs.flatten.length = 16 * bs.length := by
  induction bs with
  | nil => rfl
  | cons b rest ih =>
    simp only [List.flatten_cons, List.length_append, List.length_cons]
    rw [h b (by simp), ih (fun z hz => h z (by simp [hz]))]
    ring

theorem flatten_lt (bs : List (List Nat)) (h : ∀ b ∈ bs, ∀ x ∈ b, x < 256) :
    ∀ x ∈ bs.flatten, x < 256 := by
  intro x hx
  rcases List.mem_flatten.mp hx with ⟨b, hb, hxb⟩
  exact h b hb x hxb

theorem chunk16_pad_ne_nil (plain : List Nat) : chunk16 (pkcs7Pad plain) ≠ [] := by
  cases hp : pkcs7Pad plain with
  | nil => exact absurd hp (pkcs7Pad_ne_nil plain)
  | cons a l =>
    rw [chunk16]
    simp

theorem decryptParts_roundtrip (C : BlockCipher) (hC : GoodCipher C)
    (iv : List Nat) (hivlen : iv.length = 16) (plain : List Nat) :
    decryptParts C iv (cbcEncrypt C iv plain) = .ok plain := by
  have hbs16 : ∀ b ∈ chunk16 (pkcs7Pad plain), b.length = 16 :=
    chunk16_length_mem (pkcs7Pad plain) (pkcs7Pad_length_mod plain)
  have hct16 : ∀ b ∈ cbcEncBlocks C iv (chunk16 (pkcs7Pad plain)), b.length = 16 :=
    cbcEncBlocks_length C hC _ iv hivlen hbs16
  have hctlen : (cbcEncrypt C iv plain).length
      = 16 * (cbcEncBlocks C iv (chunk16 (pkcs7Pad plain))).length :=
    flatten_len16 _ hct16
  have hcount : (cbcEncBlocks C iv (chunk16 (pkcs7Pad plain))).length
      = (chunk16 (pkcs7Pad plain)).length := cbcEncBlocks_count C _ iv
  have hctne : cbcEncrypt C iv plain ≠ [] := by
    intro h
    have := congrArg List.length h
    rw [hctlen, hcount] at this
    simp at this
    exact chunk16_pad_ne_nil plain this
  simp only [decryptParts]
  rw [if_pos hivlen, if_pos ⟨by rw [hctlen]; omega, hctne⟩]
  rw [show cbcEncrypt C iv plain
      = (cbcEncBlocks C iv (chunk16 (pkcs7Pad plain))).flatten from rfl]
  rw [chunk16_flatten _ hct16, cbcDecBlocks_cbcEncBlocks C hC _ iv hivlen hbs16,
    flatten_chunk16 (pkcs7Pad plain), pkcs7Unpad_pad plain]

/-- C5: the encrypt/decrypt round trip.  For every block cipher with the
inverse properties AES-256 provides, every freshly sampled 16-byte IV and
every plaintext byte string — including the empty one — decrypting the
encryption returns the plaintext. -/
theorem decrypt_encrypt_roundtrip (C : BlockCipher) (hC : GoodCipher C)
    (iv : List Nat) (hivlen : iv.length = 16) (hivlt : ∀ x ∈ iv, x < 256)
    (plain : List Nat) (hplt : ∀ x ∈ plain, x < 256) :
    decrypt C (encrypt C iv plain) = .ok plain := by
  have hctlt : ∀ x ∈ cbcEncrypt C iv plain, x < 256 := by
    refine flatten_lt _ (cbcEncBlocks_lt C hC _ iv hivlen hivlt
      (chunk16_length_mem (pkcs7Pad plain) (pkcs7Pad_length_mod plain)) ?_)
    intro b hb x hx
    refine pkcs7Pad_lt plain hplt x ?_
    rw [← flatten_chunk16 (pkcs7Pad plain)]
    exact List.mem_flatten.mpr ⟨b, hb, hx⟩
  have hsplit : splitOnCharL ':' (bytesToHex iv ++ ':' :: bytesToHex (cbcEncrypt C iv plain))
      = [bytesToHex iv, bytesToHex (cbcEncrypt C iv plain)] := by
    rw [splitOnCharL_append ':' _ _ (colon_not_mem_bytesToHex iv hivlt),
      splitOnCharL_not_mem ':' _ (colon_not_mem_bytesToHex _ hctlt)]
  rw [show encrypt C iv plain
      = bytesToHex iv ++ ':' :: bytesToHex (cbcEncrypt C iv plain) from rfl]
  simp only [decrypt, hsplit]
  rw [hexToBytes_bytesToHex iv hivlt, hexToBytes_bytesToHex _ hctlt]
  exact decryptParts_roundtrip C hC iv hivlen plain

theorem goodIdCipher : GoodCipher idCipher :=
  ⟨fun _ h => h, fun _ _ hlt => hlt, fun _ _ => rfl⟩

/-- C5 witness: the round trip at a concrete IV and the empty plaintext. -/
theorem decrypt_encrypt_roundtrip_witness :
    decrypt idCipher (encrypt idCipher (List.replicate 16 0) []) = .ok [] :=
  decrypt_encrypt_roundtrip idCipher goodIdCipher (List.replicate 16 0)
    (by decide) (by decide) [] (by decide)

/-- C9: two encryptions of the same plaintext under the same key differ
whenever the two freshly sampled IVs differ: the IV is emitted in the hex
prefix of the ciphertext, and hex encoding is injective on bytes. -/
theorem encrypt_iv_neq (C : BlockCipher) (iv1 iv2 : List Nat)
    (h1 : iv1.length = 16) (h2 : iv2.length = 16)
    (hlt1 : ∀ x ∈ iv1, x < 256) (hlt2 : ∀ x ∈ iv2, x < 256)
    (plain : List Nat) (hne : iv1 ≠ iv2) :
    encrypt C iv1 plain ≠ encrypt C iv2 plain := by
  intro heq
  have hlen : (bytesToHex iv1).length = (bytesToHex iv2).length := by
    rw [bytesToHex_length, bytesToHex_length, h1, h2]
  have heq' : bytesToHex iv1 ++ ':' :: bytesToHex (cbcEncrypt C iv1 plain)
      = bytesToHex iv2 ++ ':' :: bytesToHex (cbcEncrypt C iv2 plain) := heq
  have hx := (List.append_inj heq' hlen).1
  refine hne ?_
  rw [← hexToBytes_bytesToHex iv1 hlt1, ← hexToBytes_bytesToHex iv2 hlt2, hx]

/-- C9 witness: two concrete distinct IVs give distinct ciphertexts. -/
theorem encrypt_iv_neq_witness :
    encrypt idCipher (List.replicate 16 0) []
      ≠ encrypt idCipher (1 :: List.replicate 15 0) [] :=
  encrypt_iv_neq idCipher (List.replicate 16 0) (1 :: List.replicate 15 0)
    (by decide) (by decide) (by decide) (by decide) [] (by decide)

/-- C6: the claim that `decrypt` fails on every input with a non-hex
segment is false: Node hex decoding truncates at the first invalid pair
instead of rejecting, so an input whose IV segment carries trailing
`"zz"` junk after 32 valid hex characters still decrypts successfully. -/
theorem decrypt_lenient_hex_cex :
    decrypt idCipher cexInput = .ok []
    ∧ cexIvSeg.all isHexDigitC = false
    ∧ splitOnCharL ':' cexInput = [cexIvSeg, cexCtSeg] := by
  have hsplit : splitOnCharL ':' cexInput = [cexIvSeg, cexCtSeg] := by decide
  refine ⟨?_, by decide, hsplit⟩
  simp only [decrypt, hsplit]
  have hiv : hexToBytesNode cexIvSeg = List.replicate 16 0 := by decide
  have hct : hexToBytesNode cexCtSeg = List.replicate 16 16 := by decide
  rw [hiv, hct]
  have hcb : cbcEncrypt idCipher (List.replicate 16 0) [] = List.replicate 16 16 := by
    rw [show cbcEncrypt idCipher (List.replicate 16 0) []
        = (cbcEncBlocks idCipher (List.replicate 16 0) (chunk16 (pkcs7Pad []))).flatten from rfl]
    rw [show pkcs7Pad [] = List.replicate 16 16 from by decide]
    rw [show (List.replicate 16 16 : List Nat) = List.replicate 16 16 ++ [] from by simp]
    rw [chunk16_append16 (List.replicate 16 16) [] (by decide), chunk16_nil]
    decide
  rw [← hcb]
  exact decryptParts_roundtrip idCipher goodIdCipher (List.replicate 16 0)
    (by decide) []

/-- C6 (amended): `decrypt` fails with the format error on every input
that does not split on `':'` into exactly two segments, and fails whenever
the (leniently, truncating at the first invalid pair) hex-decoded IV is
not 16 bytes; in particular `decrypt("invalid-format")` and
`decrypt("abc:def")` both fail — but a segment that merely contains
trailing non-hex junk is not by itself an error. -/
theorem decrypt_failure_cases (C : BlockCipher) (s : Str) :
    ((splitOnCharL ':' s).length ≠ 2 → decrypt C s = .error .invalidFormat)
    ∧ (∀ a b : Str, splitOnCharL ':' s = [a, b] → (hexToBytesNode a).length ≠ 16 →
        decrypt C s = .error .badIv)
    ∧ decrypt C ("invalid-format".data) = .error .invalidFormat
    ∧ decrypt C ("abc:def".data) = .error .badIv := by
  refine ⟨?_, ?_, rfl, rfl⟩
  · intro h
    simp only [decrypt]
    split
    · rename_i a b heq
      exact absurd (by rw [heq]; rfl : (splitOnCharL ':' s).length = 2) h
    · rfl
  · intro a b hs hlen
    simp only [decrypt, hs, decryptParts]
    rw [if_neg hlen]

/-- C6 witness: a colon-free input fails with the format error. -/
theorem decrypt_failure_cases_witness :
    (splitOnCharL ':' ("xyz".data)).length ≠ 2
    ∧ decrypt idCipher ("xyz".data) = .error .invalidFormat :=
  ⟨by decide, (decrypt_failure_cases idCipher ("xyz".data)).1 (by decide)⟩

end SalesAgent
